import Mathlib

/-!
Verification of the context-bridge library (server render store,
`BridgeSerializer`, `getHydratedStore`, `createBridgeHook`, `createBridge`).

The host runtime's JSON functions (`JSON.stringify` / `JSON.parse`) are
modelled concretely: a `Json` value type (numbers restricted to integers, the
only arithmetic the claims exercise), a printer `printJson` emitting the same
documents `JSON.stringify` emits for such values, and a recursive-descent
`parseJson` (slightly more lenient than `JSON.parse`, e.g. it accepts leading
zeros and trailing commas; no claim depends on rejecting those inputs).
-/

namespace ContextBridge

/-- JSON values, as produced by `JSON.parse`.  Numbers are modelled as
integers. -/
inductive Json where
  | null
  | bool (b : Bool)
  | num (n : Int)
  | str (s : String)
  | arr (elems : List Json)
  | obj (entries : List (String × Json))

mutual
/-- Size of a `Json` value, used as parser fuel bound. -/
def jsize : Json → Nat
  | .arr xs => 1 + lsize xs
  | .obj kvs => 1 + msize kvs
  | _ => 1

/-- Size of a list of array elements. -/
def lsize : List Json → Nat
  | [] => 1
  | x :: xs => 1 + jsize x + lsize xs

/-- Size of a list of object members. -/
def msize : List (String × Json) → Nat
  | [] => 1
  | kv :: r => 1 + jsize kv.2 + msize r
end

end ContextBridge

namespace ContextBridge

theorem jsize_pos (j : Json) : 1 ≤ jsize j := by
  cases j <;> simp [jsize]

/-- The character for decimal digit `d` (codepoint arithmetic, `d < 10`). -/
def digitChar (d : Nat) : Char :=
  Char.ofNat (48 + d)

/-- The character for hexadecimal digit `d` (lowercase letters past 9). -/
def hexDigit (d : Nat) : Char :=
  if d < 10 then Char.ofNat (48 + d) else Char.ofNat (87 + d)

/-- Numeric value of a hexadecimal digit character. -/
def hexVal (c : Char) : Nat :=
  if '0' ≤ c ∧ c ≤ '9' then c.toNat - 48
  else if 'a' ≤ c ∧ c ≤ 'f' then c.toNat - 87
  else if 'A' ≤ c ∧ c ≤ 'F' then c.toNat - 55
  else 0

/-- Whether a character is a hexadecimal digit. -/
def isHex (c : Char) : Bool :=
  ('0' ≤ c ∧ c ≤ '9') ∨ ('a' ≤ c ∧ c ≤ 'f') ∨ ('A' ≤ c ∧ c ≤ 'F')

/-- `JSON.stringify`'s escaping of one string character: `"` and `\` get a
backslash escape, control characters a `\u00xx` escape, anything else is
emitted literally. -/
def escapeChar (c : Char) : List Char :=
  if c = '"' then ['\\', '"']
  else if c = '\\' then ['\\', '\\']
  else if c.toNat < 32 then
    ['\\', 'u', '0', '0', hexDigit (c.toNat / 16), hexDigit (c.toNat % 16)]
  else [c]

/-- Escape a whole string body. -/
def escapeStr : List Char → List Char
  | [] => []
  | c :: cs => escapeChar c ++ escapeStr cs

/-- Decimal digits of `m`, most significant first (as emitted by
`JSON.stringify` for a nonnegative integer). -/
def natDigits (m : Nat) : List Char :=
  if m = 0 then ['0'] else ((Nat.digits 10 m).reverse).map digitChar

/-- The characters `JSON.stringify` emits for an integer number. -/
def printNum (n : Int) : List Char :=
  if n < 0 then '-' :: natDigits (-n).toNat else natDigits n.toNat

/-- The keyword `null` as characters. -/
def kwNull : List Char := ['n', 'u', 'l', 'l']

/-- The keyword `true` as characters. -/
def kwTrue : List Char := ['t', 'r', 'u', 'e']

/-- The keyword `false` as characters. -/
def kwFalse : List Char := ['f', 'a', 'l', 's', 'e']

mutual
/-- The document `JSON.stringify` produces for a `Json` value (JS engines emit
no whitespace). -/
def printJson : Json → List Char
  | .null => kwNull
  | .bool true => kwTrue
  | .bool false => kwFalse
  | .num n => printNum n
  | .str s => '"' :: escapeStr s.data ++ ['"']
  | .arr xs => '[' :: printElems xs
  | .obj kvs => '{' :: printMembers kvs

/-- Array elements followed by the closing bracket. -/
def printElems : List Json → List Char
  | [] => [']']
  | [x] => printJson x ++ [']']
  | x :: xs => printJson x ++ ',' :: printElems xs

/-- Object members followed by the closing brace. -/
def printMembers : List (String × Json) → List Char
  | [] => ['}']
  | [kv] => '"' :: escapeStr kv.1.data ++ '"' :: ':' :: printJson kv.2 ++ ['}']
  | kv :: r =>
      '"' :: escapeStr kv.1.data ++ '"' :: ':' :: printJson kv.2
        ++ ',' :: printMembers r
end

/-- `JSON.parse`'s single-character escapes. -/
def unescape (e : Char) : Option Char :=
  if e = '"' then some '"'
  else if e = '\\' then some '\\'
  else if e = '/' then some '/'
  else if e = 'n' then some '\n'
  else if e = 't' then some '\t'
  else if e = 'r' then some '\r'
  else if e = 'b' then some (Char.ofNat 8)
  else if e = 'f' then some (Char.ofNat 12)
  else none

/-- Parse a string body up to and including the closing quote, returning the
decoded characters and the remaining input. -/
def parseStringBody : List Char → Option (List Char × List Char)
  | [] => none
  | c :: rest =>
    if c = '"' then some ([], rest)
    else if c = '\\' then
      match rest with
      | [] => none
      | e :: rest2 =>
        if e = 'u' then
          match rest2 with
          | h1 :: h2 :: h3 :: h4 :: rest3 =>
            if isHex h1 && isHex h2 && isHex h3 && isHex h4 then
              (parseStringBody rest3).map (fun p =>
                (Char.ofNat
                    (((hexVal h1 * 16 + hexVal h2) * 16 + hexVal h3) * 16
                      + hexVal h4) :: p.1,
                  p.2))
            else none
          | _ => none
        else
          match unescape e with
          | some c2 => (parseStringBody rest2).map (fun p => (c2 :: p.1, p.2))
          | none => none
    else (parseStringBody rest).map (fun p => (c :: p.1, p.2))

/-- Collect the leading run of decimal digits (as values). -/
def parseDigits : List Char → List Nat × List Char
  | [] => ([], [])
  | c :: rest =>
    if c.isDigit then
      let p := parseDigits rest
      ((c.toNat - 48) :: p.1, p.2)
    else ([], c :: rest)

/-- Value of a most-significant-first digit list. -/
def digitsToNat (ds : List Nat) : Nat :=
  List.foldl (fun a d => 10 * a + d) 0 ds

/-- Parse a nonnegative decimal integer (at least one digit). -/
def parseNat (cs : List Char) : Option (Nat × List Char) :=
  match parseDigits cs with
  | ([], _) => none
  | (ds, rest) => some (digitsToNat ds, rest)

mutual
/-- Fuel-indexed recursive-descent JSON value parser. -/
def parseJson : Nat → List Char → Option (Json × List Char)
  | 0, _ => none
  | fuel + 1, cs =>
    match cs with
    | [] => none
    | c :: rest =>
      if c = 'n' then
        if rest.take 3 = ['u', 'l', 'l'] then some (.null, rest.drop 3)
        else none
      else if c = 't' then
        if rest.take 3 = ['r', 'u', 'e'] then some (.bool true, rest.drop 3)
        else none
      else if c = 'f' then
        if rest.take 4 = ['a', 'l', 's', 'e'] then
          some (.bool false, rest.drop 4)
        else none
      else if c = '"' then
        (parseStringBody rest).map (fun p => (.str ⟨p.1⟩, p.2))
      else if c = '[' then
        (parseElems fuel rest).map (fun p => (.arr p.1, p.2))
      else if c = '{' then
        (parseMembers fuel rest).map (fun p => (.obj p.1, p.2))
      else if c = '-' then
        (parseNat rest).map (fun p => (.num (-(p.1 : Int)), p.2))
      else if c.isDigit then
        (parseNat (c :: rest)).map (fun p => (.num (p.1 : Int), p.2))
      else none

/-- Parse array elements terminated by `]`. -/
def parseElems : Nat → List Char → Option (List Json × List Char)
  | 0, _ => none
  | fuel + 1, cs =>
    match cs with
    | [] => none
    | c :: r =>
      if c = ']' then some ([], r)
      else
        match parseJson fuel (c :: r) with
        | none => none
        | some (x, r2) =>
          match r2 with
          | [] => none
          | c2 :: r3 =>
            if c2 = ',' then
              (parseElems fuel r3).map (fun p => (x :: p.1, p.2))
            else if c2 = ']' then some ([x], r3)
            else none

/-- Parse object members terminated by `}`. -/
def parseMembers : Nat → List Char → Option (List (String × Json) × List Char)
  | 0, _ => none
  | fuel + 1, cs =>
    match cs with
    | [] => none
    | c :: r =>
      if c = '}' then some ([], r)
      else if c = '"' then
        match parseStringBody r with
        | none => none
        | some (k, r2) =>
          match r2 with
          | [] => none
          | c2 :: r3 =>
            if c2 = ':' then
              match parseJson fuel r3 with
              | none => none
              | some (v, r4) =>
                match r4 with
                | [] => none
                | c3 :: r5 =>
                  if c3 = ',' then
                    (parseMembers fuel r5).map
                      (fun p => ((⟨k⟩, v) :: p.1, p.2))
                  else if c3 = '}' then some ([(⟨k⟩, v)], r5)
                  else none
            else none
      else none
end

/-- `JSON.parse`: parse a complete document, requiring all input consumed.
The fuel `2 * length + 2` dominates the recursion depth of any printed
document (see `jsize_le_print` below). -/
def jsParse (text : List Char) : Option Json :=
  match parseJson (2 * text.length + 2) text with
  | some (j, []) => some j
  | _ => none

/-! ### Round-trip: `jsParse (printJson j) = some j` -/

theorem lsize_pos (xs : List Json) : 1 ≤ lsize xs := by
  cases xs <;> simp only [lsize] <;> omega

theorem msize_pos (kvs : List (String × Json)) : 1 ≤ msize kvs := by
  cases kvs <;> simp only [msize] <;> omega

theorem string_mk_data (s : String) : String.mk s.data = s := rfl

theorem isHex_hexDigit {d : Nat} (h : d < 16) : isHex (hexDigit d) = true := by
  have : ∀ d, d < 16 → isHex (hexDigit d) = true := by decide
  exact this d h

theorem hexVal_hexDigit {d : Nat} (h : d < 16) : hexVal (hexDigit d) = d := by
  have : ∀ d, d < 16 → hexVal (hexDigit d) = d := by decide
  exact this d h

theorem parseStringBody_escape (s : List Char) (rest : List Char) :
    parseStringBody (escapeStr s ++ '"' :: rest) = some (s, rest) := by
  induction s with
  | nil =>
    rw [show escapeStr [] ++ '"' :: rest = '"' :: rest from by simp [escapeStr]]
    rw [parseStringBody.eq_def]
    simp
  | cons c cs ih =>
    have hstep : escapeStr (c :: cs) ++ '"' :: rest
        = escapeChar c ++ (escapeStr cs ++ '"' :: rest) := by
      simp [escapeStr]
    rw [hstep]
    by_cases h1 : c = '"'
    · subst h1
      rw [show escapeChar '"' = ['\\', '"'] from rfl]
      simp only [List.cons_append, List.nil_append]
      rw [parseStringBody.eq_def]
      simp [unescape, ih]
    · by_cases h2 : c = '\\'
      · subst h2
        rw [show escapeChar '\\' = ['\\', '\\'] from rfl]
        simp only [List.cons_append, List.nil_append]
        rw [parseStringBody.eq_def]
        simp [unescape, ih]
      · by_cases h3 : c.toNat < 32
        · have hdiv : c.toNat / 16 < 16 := by omega
          have hmod : c.toNat % 16 < 16 := by omega
          rw [show escapeChar c = ['\\', 'u', '0', '0',
              hexDigit (c.toNat / 16), hexDigit (c.toNat % 16)] from by
            simp [escapeChar, h1, h2, h3]]
          simp only [List.cons_append, List.nil_append]
          rw [parseStringBody.eq_def]
          have hx0 : isHex '0' = true := by decide
          have hv0 : hexVal '0' = 0 := by decide
          simp only [isHex_hexDigit hdiv, isHex_hexDigit hmod, hx0, hv0,
            hexVal_hexDigit hdiv, hexVal_hexDigit hmod]
          rw [show ((0 * 16 + 0) * 16 + c.toNat / 16) * 16 + c.toNat % 16
              = c.toNat from by omega]
          simp [ih, Char.ofNat_toNat]
        · rw [show escapeChar c = [c] from by simp [escapeChar, h1, h2, h3]]
          simp only [List.cons_append, List.nil_append]
          rw [parseStringBody.eq_def]
          simp [h1, h2, ih]

theorem digitChar_isDigit {d : Nat} (h : d < 10) :
    (digitChar d).isDigit = true := by
  have : ∀ d, d < 10 → (digitChar d).isDigit = true := by decide
  exact this d h

theorem digitChar_val {d : Nat} (h : d < 10) : (digitChar d).toNat - 48 = d := by
  have : ∀ d, d < 10 → (digitChar d).toNat - 48 = d := by decide
  exact this d h

/-- Inputs whose first character is not a decimal digit (or which are empty);
a printed number followed by such a remainder parses back unambiguously. -/
def noLeadDigit : List Char → Prop
  | [] => True
  | c :: _ => c.isDigit = false

theorem parseDigits_map (ds : List Nat) (h : ∀ d ∈ ds, d < 10)
    (rest : List Char) (hrest : noLeadDigit rest) :
    parseDigits (ds.map digitChar ++ rest) = (ds, rest) := by
  induction ds with
  | nil =>
    cases rest with
    | nil => simp [parseDigits]
    | cons c r =>
      have : c.isDigit = false := hrest
      simp [parseDigits, this]
  | cons d ds ih =>
    have hd : d < 10 := h d (by simp)
    have hds : ∀ x ∈ ds, x < 10 := fun x hx => h x (by simp [hx])
    simp [parseDigits, digitChar_isDigit hd, digitChar_val hd, ih hds]

theorem digitsToNat_reverse (l : List Nat) :
    digitsToNat l.reverse = Nat.ofDigits 10 l := by
  induction l with
  | nil => simp [digitsToNat]
  | cons d l ih =>
    simp only [List.reverse_cons, digitsToNat, List.foldl_append,
      List.foldl_cons, List.foldl_nil]
    simp only [digitsToNat] at ih
    rw [ih, Nat.ofDigits_cons]
    omega

theorem natDigits_shape (m : Nat) :
    ∃ d t, natDigits m = digitChar d :: t ∧ d < 10 := by
  by_cases hm : m = 0
  · exact ⟨0, [], by subst hm; decide, by omega⟩
  · have hne : Nat.digits 10 m ≠ [] := Nat.digits_ne_nil_iff_ne_zero.mpr hm
    have hne' : (Nat.digits 10 m).reverse ≠ [] := by simpa using hne
    obtain ⟨d, l', hdl⟩ := List.exists_cons_of_ne_nil hne'
    have hd : d ∈ Nat.digits 10 m := by
      have : d ∈ (Nat.digits 10 m).reverse := by simp [hdl]
      simpa using this
    exact ⟨d, l'.map digitChar, by simp [natDigits, hm, hdl],
      Nat.digits_lt_base (by omega) hd⟩

theorem parseNat_natDigits (m : Nat) (rest : List Char)
    (hrest : noLeadDigit rest) :
    parseNat (natDigits m ++ rest) = some (m, rest) := by
  by_cases hm : m = 0
  · subst hm
    have h0 : parseDigits ('0' :: rest) = ([0], rest) := by
      have := parseDigits_map [0] (by simp) rest hrest
      simpa using this
    show parseNat ('0' :: rest) = some (0, rest)
    simp [parseNat, h0, digitsToNat]
  · have hall : ∀ d ∈ (Nat.digits 10 m).reverse, d < 10 := by
      intro d hd
      exact Nat.digits_lt_base (by omega) (by simpa using hd)
    have hpd := parseDigits_map ((Nat.digits 10 m).reverse) hall rest hrest
    have hne : Nat.digits 10 m ≠ [] := Nat.digits_ne_nil_iff_ne_zero.mpr hm
    have hne' : (Nat.digits 10 m).reverse ≠ [] := by simpa using hne
    obtain ⟨d, l', hdl⟩ := List.exists_cons_of_ne_nil hne'
    simp only [natDigits, if_neg hm]
    rw [show ((Nat.digits 10 m).reverse).map digitChar ++ rest
        = (d :: l').map digitChar ++ rest by rw [hdl]]
    rw [hdl] at hpd
    simp only [parseNat, hpd]
    have : digitsToNat (d :: l') = m := by
      rw [← hdl, digitsToNat_reverse, Nat.ofDigits_digits]
    simp [this]

/-- The characters the value parsers dispatch away from: a printed value
never begins with a closing delimiter or separator. -/
abbrev notDelim (c : Char) : Prop := c ≠ ']' ∧ c ≠ '}' ∧ c ≠ ','

theorem printJson_head (j : Json) :
    ∃ c t, printJson j = c :: t ∧ notDelim c := by
  have hop : ∀ c : Char, c ∈ ['n', 't', 'f', '"', '[', '-', '{']
      → notDelim c := by decide
  cases j with
  | num n =>
    by_cases hn : n < 0
    · exact ⟨'-', natDigits (-n).toNat,
        by simp [printJson, printNum, hn], hop _ (by decide)⟩
    · obtain ⟨d, t, hdt, hd⟩ := natDigits_shape n.toNat
      have hnd : ∀ d, d < 10 → notDelim (digitChar d) := by decide
      exact ⟨digitChar d, t,
        by simp [printJson, printNum, hn, hdt], hnd d hd⟩
  | bool b =>
    cases b with
    | true => exact ⟨'t', _, rfl, hop _ (by decide)⟩
    | false => exact ⟨'f', _, rfl, hop _ (by decide)⟩
  | null => exact ⟨'n', _, rfl, hop _ (by decide)⟩
  | str s => exact ⟨'"', _, rfl, hop _ (by decide)⟩
  | arr xs => exact ⟨'[', _, rfl, hop _ (by decide)⟩
  | obj kvs => exact ⟨'{', _, rfl, hop _ (by decide)⟩

theorem digitChar_dispatch {d : Nat} (h : d < 10) :
    digitChar d ≠ 'n' ∧ digitChar d ≠ 't' ∧ digitChar d ≠ 'f'
      ∧ digitChar d ≠ '"' ∧ digitChar d ≠ '[' ∧ digitChar d ≠ '{'
      ∧ digitChar d ≠ '-' ∧ (digitChar d).isDigit = true := by
  have : ∀ d, d < 10 → digitChar d ≠ 'n' ∧ digitChar d ≠ 't'
      ∧ digitChar d ≠ 'f' ∧ digitChar d ≠ '"' ∧ digitChar d ≠ '['
      ∧ digitChar d ≠ '{' ∧ digitChar d ≠ '-'
      ∧ (digitChar d).isDigit = true := by decide
  exact this d h

theorem parse_print_all : ∀ fuel : Nat,
    (∀ j rest, jsize j ≤ fuel → noLeadDigit rest →
      parseJson fuel (printJson j ++ rest) = some (j, rest)) ∧
    (∀ xs rest, lsize xs ≤ fuel →
      parseElems fuel (printElems xs ++ rest) = some (xs, rest)) ∧
    (∀ kvs rest, msize kvs ≤ fuel →
      parseMembers fuel (printMembers kvs ++ rest) = some (kvs, rest)) := by
  intro fuel
  induction fuel with
  | zero =>
    refine ⟨?_, ?_, ?_⟩
    · intro j rest hs _
      exact absurd hs (by have := jsize_pos j; omega)
    · intro xs rest hs
      exact absurd hs (by have := lsize_pos xs; omega)
    · intro kvs rest hs
      exact absurd hs (by have := msize_pos kvs; omega)
  | succ fuel ih =>
    obtain ⟨ihj, ihe, ihm⟩ := ih
    refine ⟨?_, ?_, ?_⟩
    · intro j rest hs hr
      cases j with
      | null =>
        show parseJson (fuel + 1) ('n' :: 'u' :: 'l' :: 'l' :: rest) = _
        rw [parseJson.eq_def]; simp
      | bool b =>
        cases b with
        | false =>
          show parseJson (fuel + 1)
            ('f' :: 'a' :: 'l' :: 's' :: 'e' :: rest) = _
          rw [parseJson.eq_def]; simp
        | true =>
          show parseJson (fuel + 1) ('t' :: 'r' :: 'u' :: 'e' :: rest) = _
          rw [parseJson.eq_def]; simp
      | num n =>
        by_cases hn : n < 0
        · rw [show printJson (.num n) ++ rest
              = '-' :: (natDigits (-n).toNat ++ rest) from by
            simp [printJson, printNum, hn]]
          rw [parseJson.eq_def]
          simp only [parseNat_natDigits _ rest hr]
          have hcast : ((-n).toNat : Int) = -n := Int.toNat_of_nonneg (by omega)
          simp [hcast]
        · obtain ⟨d, t, hdt, hd⟩ := natDigits_shape n.toNat
          obtain ⟨hc1, hc2, hc3, hc4, hc5, hc6, hc7, hc8⟩ :=
            digitChar_dispatch hd
          rw [show printJson (.num n) ++ rest
              = digitChar d :: (t ++ rest) from by
            simp [printJson, printNum, hn, hdt]]
          rw [parseJson.eq_def]
          simp only [if_neg hc1, if_neg hc2, if_neg hc3, if_neg hc4,
            if_neg hc5, if_neg hc6, if_neg hc7, hc8, if_true]
          rw [show digitChar d :: (t ++ rest) = natDigits n.toNat ++ rest
              from by simp [hdt]]
          rw [parseNat_natDigits _ rest hr]
          have hcast : (n.toNat : Int) = n := Int.toNat_of_nonneg (by omega)
          simp [hcast]
      | str s =>
        rw [show printJson (.str s) ++ rest
            = '"' :: (escapeStr s.data ++ '"' :: rest) from by
          simp [printJson]]
        rw [parseJson.eq_def]
        simp [parseStringBody_escape, string_mk_data]
      | arr xs =>
        rw [show printJson (.arr xs) ++ rest
            = '[' :: (printElems xs ++ rest) from by simp [printJson]]
        rw [parseJson.eq_def]
        have hsz : lsize xs ≤ fuel := by
          simp only [jsize] at hs; omega
        simp [ihe xs rest hsz]
      | obj kvs =>
        rw [show printJson (.obj kvs) ++ rest
            = '{' :: (printMembers kvs ++ rest) from by simp [printJson]]
        rw [parseJson.eq_def]
        have hsz : msize kvs ≤ fuel := by
          simp only [jsize] at hs; omega
        simp [ihm kvs rest hsz]
    · intro xs rest hs
      cases xs with
      | nil =>
        show parseElems (fuel + 1) (']' :: rest) = some ([], rest)
        rw [parseElems.eq_def]; simp
      | cons x xs =>
        obtain ⟨c, t, hct, hdelim⟩ := printJson_head x
        have h1 := hdelim.1
        cases xs with
        | nil =>
          rw [show printElems [x] ++ rest = c :: (t ++ (']' :: rest)) from by
            simp [printElems, hct]]
          rw [parseElems.eq_def]
          simp only [if_neg h1]
          rw [show c :: (t ++ (']' :: rest)) = printJson x ++ (']' :: rest)
              from by simp [hct]]
          have hsx : jsize x ≤ fuel := by
            simp only [lsize] at hs
            have := lsize_pos ([] : List Json); omega
          rw [ihj x (']' :: rest) hsx rfl]
          simp [h1]
        | cons y ys =>
          rw [show printElems (x :: y :: ys) ++ rest
              = c :: (t ++ (',' :: (printElems (y :: ys) ++ rest))) from by
            simp [printElems, hct]]
          rw [parseElems.eq_def]
          simp only [if_neg h1]
          rw [show c :: (t ++ (',' :: (printElems (y :: ys) ++ rest)))
              = printJson x ++ (',' :: (printElems (y :: ys) ++ rest))
              from by simp [hct]]
          have hsx : jsize x ≤ fuel := by
            simp only [lsize] at hs
            have := lsize_pos (y :: ys); omega
          have hsy : lsize (y :: ys) ≤ fuel := by
            simp only [lsize] at hs ⊢
            have := jsize_pos x; omega
          rw [ihj x (',' :: (printElems (y :: ys) ++ rest)) hsx rfl]
          simp [ihe (y :: ys) rest hsy]
    · intro kvs rest hs
      cases kvs with
      | nil =>
        show parseMembers (fuel + 1) ('}' :: rest) = some ([], rest)
        rw [parseMembers.eq_def]; simp
      | cons kv kvs =>
        obtain ⟨k, v⟩ := kv
        cases kvs with
        | nil =>
          rw [show printMembers [(k, v)] ++ rest
              = '"' :: (escapeStr k.data
                  ++ '"' :: (':' :: (printJson v ++ ('}' :: rest)))) from by
            simp [printMembers]]
          rw [parseMembers.eq_def]
          simp only [parseStringBody_escape]
          have hsv : jsize v ≤ fuel := by
            simp only [msize] at hs
            have := msize_pos ([] : List (String × Json)); omega
          simp [ihj v ('}' :: rest) hsv rfl, string_mk_data]
        | cons kv2 kvs2 =>
          rw [show printMembers ((k, v) :: kv2 :: kvs2) ++ rest
              = '"' :: (escapeStr k.data
                  ++ '"' :: (':' :: (printJson v
                    ++ (',' :: (printMembers (kv2 :: kvs2) ++ rest))))) from by
            simp [printMembers]]
          rw [parseMembers.eq_def]
          simp only [parseStringBody_escape]
          have hsv : jsize v ≤ fuel := by
            simp only [msize] at hs
            have := msize_pos (kv2 :: kvs2); omega
          have hsm : msize (kv2 :: kvs2) ≤ fuel := by
            simp only [msize] at hs ⊢
            have := jsize_pos v; omega
          rw [ihj v (',' :: (printMembers (kv2 :: kvs2) ++ rest)) hsv rfl]
          simp [ihm (kv2 :: kvs2) rest hsm, string_mk_data]

mutual
theorem jsize_le_print : ∀ j : Json, jsize j ≤ 2 * (printJson j).length
  | .null => by simp [jsize, printJson, kwNull]
  | .bool b => by cases b <;> simp [jsize, printJson, kwTrue, kwFalse]
  | .num n => by
    obtain ⟨c, t, hct, hdelim⟩ := printJson_head (Json.num n)
    rw [hct]
    simp [jsize]
    omega
  | .str s => by
    simp only [jsize, printJson, List.length_append, List.length_cons,
      List.length_nil]
    omega
  | .arr xs => by
    have h := lsize_le_print xs
    simp only [jsize, printJson, List.length_cons]
    omega
  | .obj kvs => by
    have h := msize_le_print kvs
    simp only [jsize, printJson, List.length_cons]
    omega

theorem lsize_le_print : ∀ xs : List Json, lsize xs ≤ 2 * (printElems xs).length
  | [] => by simp [lsize, printElems]
  | [x] => by
    have h := jsize_le_print x
    simp only [lsize, printElems, List.length_append, List.length_cons,
      List.length_nil]
    omega
  | x :: y :: ys => by
    have h1 := jsize_le_print x
    have h2 := lsize_le_print (y :: ys)
    simp only [lsize] at h2 ⊢
    simp only [printElems, List.length_append, List.length_cons]
    omega

theorem msize_le_print :
    ∀ kvs : List (String × Json), msize kvs ≤ 2 * (printMembers kvs).length
  | [] => by simp [msize, printMembers]
  | [kv] => by
    have h := jsize_le_print kv.2
    simp only [msize, printMembers, List.length_append, List.length_cons,
      List.length_nil]
    omega
  | kv :: kv2 :: kvs2 => by
    have h1 := jsize_le_print kv.2
    have h2 := msize_le_print (kv2 :: kvs2)
    simp only [msize] at h2 ⊢
    simp only [printMembers, List.length_append, List.length_cons]
    omega
end

/-- The fundamental round trip: parsing a printed document recovers the
value, with the whole input consumed. -/
theorem jsParse_printJson (j : Json) : jsParse (printJson j) = some j := by
  have hs : jsize j ≤ 2 * (printJson j).length + 2 := by
    have := jsize_le_print j; omega
  have h := (parse_print_all (2 * (printJson j).length + 2)).1 j [] hs trivial
  rw [List.append_nil] at h
  simp [jsParse, h]

/-! ### The library model

Server side (`lib/context-bridge.server.ts`): a request-scoped
`Map<string, unknown>` obtained through React's `cache`, written by Provider
components and flushed by `BridgeSerializer` into a `<script>` tag.  React's
`cache` is a host primitive: it hands every component rendered within one
request the same store (initially empty), and a fresh store to every request;
it is modelled by threading one store value through a request's renders,
starting from the empty store.

Client side (`lib/context-bridge.client.ts`): a module-global `clientStore`
(JS `null` initially) and `getHydratedStore`, which reads and parses the
script tag at most once; hooks made by `createBridgeHook` read the hydrated
store and fall back to a default.
-/

/-- The values user code may pass to a Provider, as seen by
`JSON.stringify`: a JSON-serializable value, one of the three
stringify-omitted kinds (`undefined`, functions, symbols — the ones the
Provider's dev warning names), or a value stringify throws on
(circular references). -/
inductive SValue where
  | js (j : Json)
  | undef
  | fn
  | sym
  | circular

/-- `Map.set` on the request store: an existing key is updated in place,
a new key is appended (JS `Map` preserves first-insertion order). -/
def mapSet (store : List (String × SValue)) (k : String) (v : SValue) :
    List (String × SValue) :=
  match store with
  | [] => [(k, v)]
  | (k', v') :: rest =>
    if k' = k then (k, v) :: rest else (k', v') :: mapSet rest k v

/-- `Map.get`-style lookup on the request store (keys are unique). -/
def storeLookup : List (String × SValue) → String → Option SValue
  | [], _ => none
  | (k', v) :: rest, k => if k' = k then some v else storeLookup rest k

/-- The render step of the Provider component returned by
`createBridgeProvider bridgeId`: it stores `data` under `bridgeId` in the
request store and renders its children unchanged. -/
def providerRender (bridgeId : String) (data : SValue)
    (store : List (String × SValue)) : List (String × SValue) :=
  mapSet store bridgeId data

/-- One request's render pass: every Provider that renders during the request
performs its `set` on the request store, in document order, starting from the
empty store `getRequestStore` created for this request. -/
def runProviders (ps : List (String × SValue)) : List (String × SValue) :=
  List.foldl (fun st p => providerRender p.1 p.2 st) [] ps

/-- `JSON.stringify` on one store value: `none` means stringify throws,
`some none` that the property is omitted from the output object,
`some (some j)` that it serializes to `j`. -/
def toJson? : SValue → Option (Option Json)
  | .js j => some (some j)
  | .undef => some none
  | .fn => some none
  | .sym => some none
  | .circular => none

/-- The object `JSON.stringify(Object.fromEntries(store))` describes:
`none` when stringify throws on some value. -/
def storeDoc : List (String × SValue) → Option (List (String × Json))
  | [] => some []
  | (k, v) :: rest =>
    match toJson? v, storeDoc rest with
    | none, _ => none
    | some _, none => none
    | some none, some es => some es
    | some (some j), some es => some ((k, j) :: es)

/-- What `BridgeSerializer` renders. -/
inductive RenderResult where
  | empty
  | script (elemId : String) (mime : String) (content : List Char)
  | thrown

/-- The well-known element id of the serialization blob. -/
def BRIDGE_SCRIPT_ID : String := "__CONTEXT_BRIDGE_STORE__"

/-- The `type` attribute of the emitted script element. -/
def BRIDGE_SCRIPT_TYPE : String := "application/json"

/-- `BridgeSerializer`, parametrised by whether
`process.env.NODE_ENV === 'development'`: renders nothing for an empty
store; otherwise stringifies the store into a single `<script>` element,
and on a stringify failure throws in development but renders nothing in
production. -/
def BridgeSerializer (dev : Bool) (store : List (String × SValue)) :
    RenderResult :=
  if store.length = 0 then .empty
  else
    match storeDoc store with
    | some entries =>
      .script BRIDGE_SCRIPT_ID BRIDGE_SCRIPT_TYPE (printJson (.obj entries))
    | none => if dev then .thrown else .empty

/-- The state of the blob element in the client's document. -/
inductive BlobState where
  | absent
  | present (text : List Char)

/-- Where client code runs: `typeof window === 'undefined'` (server pass of a
client component), or a browser with a fixed document. -/
inductive Env where
  | server
  | browser (blob : BlobState)

/-- JS truthiness of a parsed JSON value (for `if (clientStore)` and
`clientStore || ...`). -/
def jsTruthy : Json → Bool
  | .null => false
  | .bool b => b
  | .num n => decide (n ≠ 0)
  | .str s => decide (s ≠ "")
  | .arr _ => true
  | .obj _ => true

/-- Truthiness of the module-global `clientStore` (`none` is JS `null`). -/
def cacheTruthy : Option Json → Bool
  | none => false
  | some j => jsTruthy j

/-- Result of one `getHydratedStore` invocation: the value returned to the
caller, the new module-global `clientStore`, and whether the element lookup
(`located`) and `JSON.parse` (`parsed`) ran during this call. -/
structure HydResult where
  ret : Json
  newCache : Option Json
  located : Bool
  parsed : Bool

/-- One invocation of `getHydratedStore`, given the current module-global
`clientStore` (`none` = JS `null`).  Mirrors the source: a truthy cache is
returned as-is; on the server an empty store is returned without touching the
cache; otherwise the element is looked up, a present nonempty text is parsed
(`clientStore = JSON.parse(...)`, whose result the call returns, or the empty
object when that result is falsy), and
on a missing/empty element or a parse exception the cache becomes the empty
object. -/
def getHydratedStore (env : Env) (cache : Option Json) : HydResult :=
  if cacheTruthy cache then ⟨cache.getD (.obj []), cache, false, false⟩
  else
    match env with
    | .server => ⟨.obj [], cache, false, false⟩
    | .browser .absent => ⟨.obj [], some (.obj []), true, false⟩
    | .browser (.present text) =>
      if text.isEmpty then ⟨.obj [], some (.obj []), true, false⟩
      else
        match jsParse text with
        | some j => ⟨if jsTruthy j then j else .obj [], some j, true, true⟩
        | none => ⟨.obj [], some (.obj []), true, true⟩

/-- Last value assigned to key `k` in an assignment sequence (a later
assignment overwrites an earlier one).  Used both for JS object property
lookup (`store[bridgeId]`) and for the net effect of a Provider sequence. -/
def lastSet {α : Type} : List (String × α) → String → Option α
  | [], _ => none
  | (k', v) :: rest, k =>
    match lastSet rest k with
    | some r => some r
    | none => if k' = k then some v else none

/-- Property access `store[bridgeId]` on a parsed JSON value; `none` models
`undefined`.  (Own properties only; prototype-chain names are out of
scope.) -/
def jsIndex (j : Json) (k : String) : Option Json :=
  match j with
  | .obj es => lastSet es k
  | _ => none

/-- The hook returned by `createBridgeHook bridgeId defaultValue`, evaluated
in environment `env` with module cache `cache`: the `useMemo` body reads the
store once (`getHydratedStore`), then `store[bridgeId]` is returned if it is
not `undefined`, else the default. -/
def useBridgeData (bridgeId : String) (defaultValue : Json)
    (env : Env) (cache : Option Json) : Json :=
  let store := (getHydratedStore env cache).ret
  match jsIndex store bridgeId with
  | some v => v
  | none => defaultValue

/-- `createBridgeHook` itself: returns the hook. -/
def createBridgeHook (bridgeId : String) (defaultValue : Json) :
    Env → Option Json → Json :=
  useBridgeData bridgeId defaultValue

/-- The message of the error `useBridge` throws outside a Provider. -/
def bridgeErrMsg : String := "useBridge must be used within a BridgeProvider"

/-- `useBridge` from `createBridge` (the context-based bridge in the same
package): reads the React context — `none` when no enclosing
`BridgeProvider` supplied a value — and throws on `undefined`. -/
def useBridge {α : Type} (context : Option α) : Except String α :=
  match context with
  | none => .error bridgeErrMsg
  | some v => .ok v

/-- The module-global `clientStore` after `n` calls to `getHydratedStore`
within one client session (fixed environment; initially JS `null`). -/
def hydrateIter (env : Env) : Nat → Option Json
  | 0 => none
  | n + 1 => (getHydratedStore env (hydrateIter env n)).newCache

/-- The parse of the blob the first browser call would attempt: `none` when
the element is absent, its text empty, or `JSON.parse` throws. -/
def blobParse : BlobState → Option Json
  | .absent => none
  | .present t => if t.isEmpty then none else jsParse t

/-! ### Store lemmas -/

/-- The entries `JSON.stringify(Object.fromEntries(store))` keeps, in order:
values of kind `undefined`/function/symbol are omitted. -/
def jsEntries : List (String × SValue) → List (String × Json)
  | [] => []
  | (k, v) :: rest =>
    match toJson? v with
    | some (some j) => (k, j) :: jsEntries rest
    | _ => jsEntries rest

theorem storeDoc_of_noThrow (store : List (String × SValue))
    (h : ∀ p ∈ store, p.2 ≠ SValue.circular) :
    storeDoc store = some (jsEntries store) := by
  induction store with
  | nil => simp [storeDoc, jsEntries]
  | cons p rest ih =>
    obtain ⟨k, v⟩ := p
    have hv : v ≠ SValue.circular := h (k, v) (by simp)
    have hrest : ∀ p ∈ rest, p.2 ≠ SValue.circular :=
      fun p hp => h p (by simp [hp])
    cases v with
    | js j => simp [storeDoc, jsEntries, toJson?, ih hrest]
    | undef => simp [storeDoc, jsEntries, toJson?, ih hrest]
    | fn => simp [storeDoc, jsEntries, toJson?, ih hrest]
    | sym => simp [storeDoc, jsEntries, toJson?, ih hrest]
    | circular => exact absurd rfl hv

theorem storeLookup_mapSet (st : List (String × SValue)) (k k' : String)
    (v : SValue) :
    storeLookup (mapSet st k v) k'
      = if k = k' then some v else storeLookup st k' := by
  induction st with
  | nil => simp [mapSet, storeLookup]
  | cons p rest ih =>
    obtain ⟨k1, v1⟩ := p
    by_cases h1 : k1 = k
    · subst h1
      by_cases h2 : k1 = k'
      · subst h2; simp [mapSet, storeLookup]
      · simp [mapSet, storeLookup, h2]
    · by_cases h2 : k1 = k'
      · subst h2
        have : ¬ k = k1 := fun hh => h1 hh.symm
        simp [mapSet, storeLookup, h1, this]
      · simp [mapSet, storeLookup, h1, h2, ih]

theorem lastSet_eq_none {α : Type} (l : List (String × α)) (id : String)
    (h : id ∉ l.map Prod.fst) : lastSet l id = none := by
  induction l with
  | nil => simp [lastSet]
  | cons p rest ih =>
    obtain ⟨k, v⟩ := p
    simp only [List.map_cons, List.mem_cons] at h
    push_neg at h
    have hk : ¬ k = id := fun hh => h.1 hh.symm
    simp [lastSet, ih h.2, hk]

theorem lastSet_cons_none {α : Type} (ps : List (String × α)) (p : String × α)
    (id : String) (h : lastSet ps id = none) :
    lastSet (p :: ps) id = if p.1 = id then some p.2 else none := by
  obtain ⟨k, v⟩ := p
  simp [lastSet, h]

theorem foldl_storeLookup (ps : List (String × SValue)) :
    ∀ (st : List (String × SValue)) (id : String),
      storeLookup
          (List.foldl (fun s p => providerRender p.1 p.2 s) st ps) id
        = match lastSet ps id with
          | some v => some v
          | none => storeLookup st id := by
  induction ps with
  | nil => intro st id; simp [lastSet]
  | cons p rest ih =>
    intro st id
    obtain ⟨pk, pv⟩ := p
    simp only [List.foldl_cons]
    rw [ih]
    cases hrest : lastSet rest id with
    | some v => simp [lastSet, hrest]
    | none =>
      simp only [providerRender, storeLookup_mapSet, lastSet, hrest]
      by_cases hp : pk = id
      · simp [hp]
      · simp [hp, fun hh : id = pk => hp hh.symm]

/-- The net effect of a Provider sequence on the store: last write wins. -/
theorem runProviders_lookup (ps : List (String × SValue)) (id : String) :
    storeLookup (runProviders ps) id = lastSet ps id := by
  rw [runProviders, foldl_storeLookup]
  cases h : lastSet ps id <;> simp [storeLookup]

theorem mem_keys_mapSet (st : List (String × SValue)) (k : String) (v : SValue)
    (x : String) (hx : x ∈ (mapSet st k v).map Prod.fst) :
    x = k ∨ x ∈ st.map Prod.fst := by
  induction st with
  | nil => simpa [mapSet] using hx
  | cons p rest ih =>
    obtain ⟨k1, v1⟩ := p
    by_cases h1 : k1 = k
    · have hms : mapSet ((k1, v1) :: rest) k v = (k, v) :: rest := by
        simp [mapSet, h1]
      rw [hms] at hx
      simp only [List.map_cons, List.mem_cons] at hx
      rcases hx with hx | hx
      · exact Or.inl hx
      · exact Or.inr (by simp [hx])
    · simp only [mapSet, if_neg h1, List.map_cons, List.mem_cons] at hx
      rcases hx with hx | hx
      · exact Or.inr (by simp [hx])
      · rcases ih hx with hx | hx
        · exact Or.inl hx
        · exact Or.inr (by simp [hx])

theorem mapSet_nodupKeys (st : List (String × SValue)) (k : String)
    (v : SValue) (h : (st.map Prod.fst).Nodup) :
    ((mapSet st k v).map Prod.fst).Nodup := by
  induction st with
  | nil => simp [mapSet]
  | cons p rest ih =>
    obtain ⟨k1, v1⟩ := p
    simp only [List.map_cons, List.nodup_cons] at h
    by_cases h1 : k1 = k
    · have hms : mapSet ((k1, v1) :: rest) k v = (k, v) :: rest := by
        simp [mapSet, h1]
      rw [hms]
      simp only [List.map_cons, List.nodup_cons]
      exact ⟨h1 ▸ h.1, h.2⟩
    · simp only [mapSet, if_neg h1, List.map_cons, List.nodup_cons]
      refine ⟨fun hmem => ?_, ih h.2⟩
      rcases mem_keys_mapSet rest k v k1 hmem with hx | hx
      · exact h1 hx
      · exact h.1 hx

theorem foldl_nodupKeys (ps : List (String × SValue)) :
    ∀ st : List (String × SValue), (st.map Prod.fst).Nodup →
      ((List.foldl (fun s p => providerRender p.1 p.2 s) st ps).map
        Prod.fst).Nodup := by
  induction ps with
  | nil => intro st h; simpa using h
  | cons p rest ih =>
    intro st h
    simp only [List.foldl_cons]
    exact ih _ (mapSet_nodupKeys st p.1 p.2 h)

/-- The request store never holds two entries with the same key. -/
theorem runProviders_nodupKeys (ps : List (String × SValue)) :
    ((runProviders ps).map Prod.fst).Nodup :=
  foldl_nodupKeys ps [] (by simp)

theorem jsEntries_keys_sub (store : List (String × SValue)) (x : String)
    (hx : x ∈ (jsEntries store).map Prod.fst) : x ∈ store.map Prod.fst := by
  induction store with
  | nil => simp [jsEntries] at hx
  | cons p rest ih =>
    obtain ⟨k, v⟩ := p
    cases v with
    | js j =>
      simp only [jsEntries, toJson?, List.map_cons, List.mem_cons] at hx
      rcases hx with hx | hx
      · simp [hx]
      · simp [ih hx]
    | undef => simp only [jsEntries, toJson?] at hx; simp [ih hx]
    | fn => simp only [jsEntries, toJson?] at hx; simp [ih hx]
    | sym => simp only [jsEntries, toJson?] at hx; simp [ih hx]
    | circular => simp only [jsEntries, toJson?] at hx; simp [ih hx]

/-- Transfer of a store lookup to the serialized object: with unique keys, a
key bound to a serializable value appears in the blob with exactly that
value. -/
theorem jsEntries_lastSet (store : List (String × SValue)) (id : String)
    (v : Json) (hnd : (store.map Prod.fst).Nodup)
    (hl : storeLookup store id = some (.js v)) :
    lastSet (jsEntries store) id = some v := by
  induction store with
  | nil => simp [storeLookup] at hl
  | cons p rest ih =>
    obtain ⟨k, sv⟩ := p
    simp only [List.map_cons, List.nodup_cons] at hnd
    by_cases hk : k = id
    · subst hk
      simp [storeLookup] at hl
      subst hl
      have hnone : lastSet (jsEntries rest) k = none :=
        lastSet_eq_none _ _ (fun hmem => hnd.1 (jsEntries_keys_sub rest k hmem))
      simp [jsEntries, toJson?, lastSet, hnone]
    · simp only [storeLookup, if_neg hk] at hl
      have := ih hnd.2 hl
      cases sv with
      | js j => simp [jsEntries, toJson?, lastSet, this]
      | undef => simp [jsEntries, toJson?, this]
      | fn => simp [jsEntries, toJson?, this]
      | sym => simp [jsEntries, toJson?, this]
      | circular => simp [jsEntries, toJson?, this]

/-! ### Hydration helpers -/

theorem ghs_blobParse_none (blob : BlobState) (h : blobParse blob = none) :
    (getHydratedStore (.browser blob) none).ret = Json.obj []
    ∧ (getHydratedStore (.browser blob) none).newCache = some (Json.obj []) := by
  cases blob with
  | absent => exact ⟨rfl, rfl⟩
  | present t =>
    simp only [blobParse] at h
    by_cases ht : t.isEmpty
    · simp [getHydratedStore, cacheTruthy, ht]
    · simp only [if_neg ht] at h
      simp [getHydratedStore, cacheTruthy, ht, h]

theorem ghs_blobParse_some (blob : BlobState) (j : Json)
    (h : blobParse blob = some j) :
    getHydratedStore (.browser blob) none
      = ⟨if jsTruthy j then j else Json.obj [], some j, true, true⟩ := by
  cases blob with
  | absent => simp [blobParse] at h
  | present t =>
    simp only [blobParse] at h
    by_cases ht : t.isEmpty
    · simp [ht] at h
    · simp only [if_neg ht] at h
      simp [getHydratedStore, cacheTruthy, ht, h]

/-- After the first browser call the cache and the returned store value are
fixed for the rest of the session (even when the cached parse result is
falsy and the blob is re-parsed, the same document comes back). -/
theorem ghs_stable (blob : BlobState) :
    (getHydratedStore (.browser blob)
        ((getHydratedStore (.browser blob) none).newCache)).newCache
      = (getHydratedStore (.browser blob) none).newCache
    ∧ (getHydratedStore (.browser blob)
        ((getHydratedStore (.browser blob) none).newCache)).ret
      = (getHydratedStore (.browser blob) none).ret := by
  cases hb : blobParse blob with
  | none =>
    obtain ⟨hret, hcache⟩ := ghs_blobParse_none blob hb
    rw [hret, hcache]
    exact ⟨rfl, rfl⟩
  | some j =>
    rw [ghs_blobParse_some blob j hb]
    by_cases hj : jsTruthy j
    · simp only [if_pos hj]
      simp [getHydratedStore, cacheTruthy, hj]
    · simp only [if_neg hj]
      have : getHydratedStore (.browser blob) (some j)
          = ⟨if jsTruthy j then j else Json.obj [], some j, true, true⟩ := by
        cases blob with
        | absent => simp [blobParse] at hb
        | present t =>
          simp only [blobParse] at hb
          by_cases ht : t.isEmpty
          · simp [ht] at hb
          · simp only [if_neg ht] at hb
            simp [getHydratedStore, cacheTruthy, hj, ht, hb]
      rw [this]
      simp [hj]

theorem hydrateIter_fixed (blob : BlobState) (n : Nat) (hn : 1 ≤ n) :
    hydrateIter (.browser blob) n = hydrateIter (.browser blob) 1 := by
  induction n with
  | zero => omega
  | succ n ih =>
    by_cases hn1 : 1 ≤ n
    · have h1 : hydrateIter (.browser blob) (n + 1)
          = (getHydratedStore (.browser blob)
              (hydrateIter (.browser blob) n)).newCache := rfl
      rw [h1, ih hn1]
      exact (ghs_stable blob).1
    · have : n = 0 := by omega
      subst this
      rfl

/-! ### Claim theorems -/

/-- C10: when `getHydratedStore` runs with `window` undefined (a server pass
of a client component) it returns the empty store without writing the cache,
so the hook returns its default in that pass, a later browser call starts
from the untouched cache, and with a present nonempty blob that call locates
and parses the blob. -/
theorem c10_server_call_safe (bridgeId : String) (d : Json)
    (blob : BlobState) (t : List Char) (ht : t ≠ []) :
    getHydratedStore .server none = ⟨Json.obj [], none, false, false⟩
    ∧ useBridgeData bridgeId d .server none = d
    ∧ getHydratedStore (.browser blob)
        ((getHydratedStore .server none).newCache)
      = getHydratedStore (.browser blob) none
    ∧ (getHydratedStore (.browser (.present t)) none).located = true
    ∧ (getHydratedStore (.browser (.present t)) none).parsed = true := by
  refine ⟨rfl, rfl, rfl, ?_, ?_⟩ <;>
    · have hemp : t.isEmpty = false := by
        cases t with
        | nil => exact absurd rfl ht
        | cons c r => rfl
      cases hp : jsParse t <;>
        simp [getHydratedStore, cacheTruthy, hemp, hp]

/-- C10 witness. -/
theorem c10_witness :
    (['x'] : List Char) ≠ []
    ∧ (getHydratedStore (Env.browser (BlobState.present ['x'])) none).parsed
      = true := by
  refine ⟨by simp, ?_⟩
  exact (c10_server_call_safe (String.mk ['a']) Json.null
    BlobState.absent ['x'] (by simp)).2.2.2.2

/-- C2: the hook created by `createBridgeHook` returns its default exactly
when hydration found no entry under its `bridgeId`: the default comes back
when `store[bridgeId]` is `undefined`, the stored value otherwise, and the
lookup is `undefined` whenever the blob was absent, empty, or unparsable, or
the parsed object lacks the key. -/
theorem c2_default_semantics (blob : BlobState) (bridgeId : String)
    (d : Json) :
    (jsIndex (getHydratedStore (.browser blob) none).ret bridgeId = none →
      useBridgeData bridgeId d (.browser blob) none = d)
    ∧ (∀ v, jsIndex (getHydratedStore (.browser blob) none).ret bridgeId
          = some v →
        useBridgeData bridgeId d (.browser blob) none = v)
    ∧ (blobParse blob = none →
        jsIndex (getHydratedStore (.browser blob) none).ret bridgeId = none)
    ∧ (∀ es, blobParse blob = some (.obj es) → lastSet es bridgeId = none →
        jsIndex (getHydratedStore (.browser blob) none).ret bridgeId
          = none) := by
  refine ⟨?_, ?_, ?_, ?_⟩
  · intro h
    simp [useBridgeData, h]
  · intro v h
    simp [useBridgeData, h]
  · intro h
    rw [(ghs_blobParse_none blob h).1]
    rfl
  · intro es h hes
    rw [ghs_blobParse_some blob (.obj es) h]
    simpa [jsIndex, jsTruthy] using hes

/-- C2 witness. -/
theorem c2_witness :
    jsIndex (getHydratedStore (Env.browser BlobState.absent) none).ret
        (String.mk ['a']) = none
    ∧ useBridgeData (String.mk ['a']) (Json.num 7)
        (Env.browser BlobState.absent) none = Json.num 7 := by
  refine ⟨rfl, ?_⟩
  exact (c2_default_semantics BlobState.absent (String.mk ['a'])
    (Json.num 7)).1 rfl

/-- C8: `null` is a present value, not a missing entry: a stored JSON `null`
reaches the hook as `null` rather than the default, because the hook falls
back only when the lookup yields exactly `undefined` (`data !== undefined`). -/
theorem c8_null_is_present (env : Env) (cache : Option Json)
    (bridgeId : String) (d : Json) :
    (jsIndex (getHydratedStore env cache).ret bridgeId = some .null →
      useBridgeData bridgeId d env cache = .null)
    ∧ (∀ v, jsIndex (getHydratedStore env cache).ret bridgeId = some v →
      useBridgeData bridgeId d env cache = v) := by
  refine ⟨?_, ?_⟩
  · intro h
    simp [useBridgeData, h]
  · intro v h
    simp [useBridgeData, h]

/-- C8 witness: the blob binds key `a` to `null`; the hook returns `null`,
not the default `7`. -/
theorem c8_witness :
    jsIndex (getHydratedStore
        (Env.browser (BlobState.present
          ['{', '"', 'a', '"', ':', 'n', 'u', 'l', 'l', '}'])) none).ret
        (String.mk ['a']) = some .null
    ∧ useBridgeData (String.mk ['a']) (Json.num 7)
        (Env.browser (BlobState.present
          ['{', '"', 'a', '"', ':', 'n', 'u', 'l', 'l', '}'])) none
      = .null := by
  refine ⟨rfl, ?_⟩
  exact (c8_null_is_present
    (Env.browser (BlobState.present
      ['{', '"', 'a', '"', ':', 'n', 'u', 'l', 'l', '}'])) none
    (String.mk ['a']) (Json.num 7)).1 rfl

/-! ### Counting and membership lemmas -/

theorem storeLookup_mem (store : List (String × SValue)) (id : String)
    (v : SValue) (h : storeLookup store id = some v) :
    id ∈ store.map Prod.fst := by
  induction store with
  | nil => simp [storeLookup] at h
  | cons p rest ih =>
    obtain ⟨k, v1⟩ := p
    by_cases hk : k = id
    · simp [hk]
    · simp only [storeLookup, if_neg hk] at h
      simp [ih h]

theorem lastSet_mem {α : Type} (l : List (String × α)) (id : String)
    (v : α) (h : lastSet l id = some v) : id ∈ l.map Prod.fst := by
  by_contra hmem
  rw [lastSet_eq_none l id hmem] at h
  exact Option.noConfusion h

theorem countP_key_eq_one {α : Type} (l : List (String × α)) (id : String)
    (hnd : (l.map Prod.fst).Nodup) (hmem : id ∈ l.map Prod.fst) :
    l.countP (fun p => decide (p.1 = id)) = 1 := by
  induction l with
  | nil => simp at hmem
  | cons p rest ih =>
    obtain ⟨k, v⟩ := p
    simp only [List.map_cons, List.nodup_cons] at hnd
    rw [List.countP_cons]
    by_cases hk : k = id
    · subst hk
      have hzero : rest.countP (fun p => decide (p.1 = k)) = 0 :=
        List.countP_eq_zero.mpr (fun q hq => by
          simp only [decide_eq_true_eq]
          intro hq1
          exact hnd.1 (hq1 ▸ List.mem_map_of_mem Prod.fst hq))
      simp [hzero]
    · have hmem2 : id ∈ rest.map Prod.fst := by
        simp only [List.map_cons, List.mem_cons] at hmem
        rcases hmem with h | h
        · exact absurd h.symm hk
        · exact h
      simp [hk, ih hnd.2 hmem2]

theorem jsEntries_keys_sublist (store : List (String × SValue)) :
    ((jsEntries store).map Prod.fst).Sublist (store.map Prod.fst) := by
  induction store with
  | nil => simp [jsEntries]
  | cons p rest ih =>
    obtain ⟨k, v⟩ := p
    cases v with
    | js j =>
      simp only [jsEntries, toJson?, List.map_cons]
      exact List.Sublist.cons₂ k ih
    | undef =>
      simp only [jsEntries, toJson?, List.map_cons]
      exact List.Sublist.cons k ih
    | fn =>
      simp only [jsEntries, toJson?, List.map_cons]
      exact List.Sublist.cons k ih
    | sym =>
      simp only [jsEntries, toJson?, List.map_cons]
      exact List.Sublist.cons k ih
    | circular =>
      simp only [jsEntries, toJson?, List.map_cons]
      exact List.Sublist.cons k ih

/-- Values reached by a Provider fold all satisfy a property holding of the
initial store and of every provider input. -/
theorem mem_mapSet_cases (st : List (String × SValue)) (k : String)
    (v : SValue) (q : String × SValue) (hq : q ∈ mapSet st k v) :
    q = (k, v) ∨ q ∈ st := by
  induction st with
  | nil => simpa [mapSet] using hq
  | cons p rest ih =>
    obtain ⟨k1, v1⟩ := p
    by_cases h1 : k1 = k
    · rw [show mapSet ((k1, v1) :: rest) k v = (k, v) :: rest from by
        simp [mapSet, h1]] at hq
      rcases (List.mem_cons).mp hq with h | h
      · exact Or.inl h
      · exact Or.inr (by simp [h])
    · rw [show mapSet ((k1, v1) :: rest) k v
          = (k1, v1) :: mapSet rest k v from by simp [mapSet, h1]] at hq
      rcases (List.mem_cons).mp hq with h | h
      · exact Or.inr (by simp [h])
      · rcases ih h with h2 | h2
        · exact Or.inl h2
        · exact Or.inr (by simp [h2])

theorem foldl_values_prop (P : String × SValue → Prop)
    (ps : List (String × SValue)) :
    ∀ st : List (String × SValue), (∀ q ∈ st, P q) → (∀ p ∈ ps, P p) →
      ∀ q ∈ List.foldl (fun s p => providerRender p.1 p.2 s) st ps, P q := by
  induction ps with
  | nil => intro st hst _ q hq; exact hst q (by simpa using hq)
  | cons p rest ih =>
    intro st hst hps q hq
    simp only [List.foldl_cons] at hq
    refine ih _ ?_ (fun p2 hp2 => hps p2 (by simp [hp2])) q hq
    intro q2 hq2
    rcases mem_mapSet_cases st p.1 p.2 q2 hq2 with h | h
    · have := hps p (by simp)
      rw [h]
      simpa using this
    · exact hst q2 h

theorem runProviders_values (P : String × SValue → Prop)
    (ps : List (String × SValue)) (hps : ∀ p ∈ ps, P p) :
    ∀ q ∈ runProviders ps, P q :=
  foldl_values_prop P ps [] (by simp) hps

/-- C6: request scoping: a request's store starts empty, every Provider `set`
performed during the request is visible to `BridgeSerializer` rendered in the
same request (with the last write per key winning), and the store contains no
key that no Provider of its own request set — so stores of distinct requests
share no entries. -/
theorem c6_request_scoping (ps : List (String × SValue)) (id : String) :
    runProviders [] = []
    ∧ (∀ v, lastSet ps id = some v →
        storeLookup (runProviders ps) id = some v)
    ∧ ((∀ p ∈ ps, p.1 ≠ id) → storeLookup (runProviders ps) id = none) := by
  refine ⟨rfl, ?_, ?_⟩
  · intro v h
    rw [runProviders_lookup, h]
  · intro h
    rw [runProviders_lookup]
    refine lastSet_eq_none ps id (fun hmem => ?_)
    obtain ⟨p, hp, hp1⟩ := List.mem_map.mp hmem
    exact h p hp hp1

/-- C6 witness. -/
theorem c6_witness :
    lastSet [(String.mk ['a'], SValue.js Json.null)] (String.mk ['a'])
      = some (SValue.js Json.null)
    ∧ storeLookup (runProviders [(String.mk ['a'], SValue.js Json.null)])
        (String.mk ['a'])
      = some (SValue.js Json.null) := by
  refine ⟨rfl, ?_⟩
  exact (c6_request_scoping [(String.mk ['a'], SValue.js Json.null)]
    (String.mk ['a'])).2.1 (SValue.js Json.null) rfl

/-- C7: no updates after the initial load: within one browser session the
module cache is fixed from the first `getHydratedStore` call on, every later
call returns the same store value, and the value a hook returns for a given
`bridgeId` never changes for the remainder of the session. -/
theorem c7_no_updates (blob : BlobState) (n : Nat) (hn : 1 ≤ n)
    (bridgeId : String) (d : Json) :
    hydrateIter (.browser blob) n = hydrateIter (.browser blob) 1
    ∧ (getHydratedStore (.browser blob) (hydrateIter (.browser blob) n)).ret
      = (getHydratedStore (.browser blob) none).ret
    ∧ (getHydratedStore (.browser blob)
          (hydrateIter (.browser blob) n)).newCache
      = hydrateIter (.browser blob) n
    ∧ useBridgeData bridgeId d (.browser blob) (hydrateIter (.browser blob) n)
      = useBridgeData bridgeId d (.browser blob) none := by
  have hfix := hydrateIter_fixed blob n hn
  have h1 : hydrateIter (.browser blob) 1
      = (getHydratedStore (.browser blob) none).newCache := rfl
  refine ⟨hfix, ?_, ?_, ?_⟩
  · rw [hfix, h1]
    exact (ghs_stable blob).2
  · rw [hfix, h1]
    exact (ghs_stable blob).1
  · rw [useBridgeData, useBridgeData, hfix, h1, (ghs_stable blob).2]

/-- C7 witness. -/
theorem c7_witness :
    (1 : Nat) ≤ 2
    ∧ useBridgeData (String.mk ['a']) (Json.num 7)
        (Env.browser BlobState.absent)
        (hydrateIter (Env.browser BlobState.absent) 2)
      = useBridgeData (String.mk ['a']) (Json.num 7)
        (Env.browser BlobState.absent) none := by
  refine ⟨by omega, ?_⟩
  exact (c7_no_updates BlobState.absent 2 (by omega) (String.mk ['a'])
    (Json.num 7)).2.2.2

/-- C9: last write wins: when several Providers with the same `bridgeId`
render in one request, the request store keeps exactly one entry for that
id, holding the value written last, and the serialized object likewise
contains exactly one member for the id, with that value. -/
theorem c9_last_write_wins (ps : List (String × Json)) (id : String)
    (v : Json)
    (hl : lastSet (ps.map (fun p => (p.1, SValue.js p.2))) id
        = some (SValue.js v)) :
    storeLookup (runProviders (ps.map (fun p => (p.1, SValue.js p.2)))) id
      = some (SValue.js v)
    ∧ (runProviders (ps.map (fun p => (p.1, SValue.js p.2)))).countP
        (fun p => decide (p.1 = id)) = 1
    ∧ lastSet
        (jsEntries (runProviders (ps.map (fun p => (p.1, SValue.js p.2)))))
        id = some v
    ∧ (jsEntries (runProviders (ps.map (fun p => (p.1, SValue.js p.2))))).countP
        (fun p => decide (p.1 = id)) = 1 := by
  have hlook :
      storeLookup (runProviders (ps.map (fun p => (p.1, SValue.js p.2)))) id
        = some (SValue.js v) := by
    rw [runProviders_lookup, hl]
  have hnd := runProviders_nodupKeys (ps.map (fun p => (p.1, SValue.js p.2)))
  have hjsl := jsEntries_lastSet _ id v hnd hlook
  refine ⟨hlook, ?_, hjsl, ?_⟩
  · exact countP_key_eq_one _ id hnd (storeLookup_mem _ id _ hlook)
  · exact countP_key_eq_one _ id
      ((jsEntries_keys_sublist _).nodup hnd)
      (lastSet_mem _ id v hjsl)

/-- C9 witness: two Providers write to `a`; the last value `2` survives,
once, in store and blob. -/
theorem c9_witness :
    lastSet ([(String.mk ['a'], Json.num 1), (String.mk ['a'], Json.num 2)].map
        (fun p => (p.1, SValue.js p.2))) (String.mk ['a'])
      = some (SValue.js (Json.num 2))
    ∧ lastSet
        (jsEntries (runProviders
          ([(String.mk ['a'], Json.num 1), (String.mk ['a'], Json.num 2)].map
            (fun p => (p.1, SValue.js p.2))))) (String.mk ['a'])
      = some (Json.num 2) := by
  refine ⟨rfl, ?_⟩
  exact (c9_last_write_wins
    [(String.mk ['a'], Json.num 1), (String.mk ['a'], Json.num 2)]
    (String.mk ['a']) (Json.num 2) rfl).2.2.1

theorem ghs_first_cache_truthy (blob : BlobState)
    (hb : ∀ j, blobParse blob = some j → jsTruthy j = true) :
    ∃ j, (getHydratedStore (.browser blob) none).newCache = some j
      ∧ jsTruthy j = true
      ∧ (getHydratedStore (.browser blob) none).ret = j := by
  cases hp : blobParse blob with
  | none =>
    obtain ⟨hret, hcache⟩ := ghs_blobParse_none blob hp
    exact ⟨.obj [], hcache, rfl, hret⟩
  | some j =>
    have hj := hb j hp
    rw [ghs_blobParse_some blob j hp]
    exact ⟨j, rfl, hj, by simp [hj]⟩

/-- C3 fails as stated: if the blob's document is the falsy JSON value
`null`, the first call assigns the falsy parse result to `clientStore`, so
the `if (clientStore)` guard fails again and the second call locates and
parses the blob a second time. -/
theorem c3_counterexample :
    (getHydratedStore (.browser (.present ['n', 'u', 'l', 'l']))
        (hydrateIter (.browser (.present ['n', 'u', 'l', 'l'])) 1)).parsed
      = true
    ∧ (getHydratedStore (.browser (.present ['n', 'u', 'l', 'l']))
        (hydrateIter (.browser (.present ['n', 'u', 'l', 'l'])) 1)).located
      = true :=
  ⟨rfl, rfl⟩

/-- C3 amended: hydration happens exactly once per client session provided
the blob does not parse to a falsy JSON document (`null`, `false`, `0`,
`""`) — in particular for every blob `BridgeSerializer` emits, which is a
JSON object: after the first call every further call returns the cached
mapping without locating or parsing the blob again. -/
theorem c3_hydrate_once (blob : BlobState)
    (hb : ∀ j, blobParse blob = some j → jsTruthy j = true)
    (n : Nat) (hn : 1 ≤ n) :
    hydrateIter (.browser blob) n = hydrateIter (.browser blob) 1
    ∧ (getHydratedStore (.browser blob)
        (hydrateIter (.browser blob) n)).located = false
    ∧ (getHydratedStore (.browser blob)
        (hydrateIter (.browser blob) n)).parsed = false
    ∧ (getHydratedStore (.browser blob) (hydrateIter (.browser blob) n)).ret
      = (getHydratedStore (.browser blob) none).ret := by
  obtain ⟨j, hcache, hj, hret⟩ := ghs_first_cache_truthy blob hb
  have hfix := hydrateIter_fixed blob n hn
  have h1 : hydrateIter (.browser blob) 1
      = (getHydratedStore (.browser blob) none).newCache := rfl
  have hstep : getHydratedStore (.browser blob) (some j)
      = ⟨j, some j, false, false⟩ := by
    simp [getHydratedStore, cacheTruthy, hj]
  refine ⟨hfix, ?_, ?_, ?_⟩
  · rw [hfix, h1, hcache, hstep]
  · rw [hfix, h1, hcache, hstep]
  · rw [hfix, h1, hcache, hstep, hret]

/-- C3 witness (for the amended theorem). -/
theorem c3_witness :
    (∀ j, blobParse BlobState.absent = some j → jsTruthy j = true)
    ∧ (1 : Nat) ≤ 2
    ∧ (getHydratedStore (Env.browser BlobState.absent)
        (hydrateIter (Env.browser BlobState.absent) 2)).parsed = false := by
  have hb : ∀ j, blobParse BlobState.absent = some j → jsTruthy j = true :=
    fun j h => Option.noConfusion h
  exact ⟨hb, by omega, (c3_hydrate_once BlobState.absent hb 2 (by omega)).2.2.1⟩

/-! ### Serializer helpers and claims C4, C5, C1 -/

/-- The serializable payload of a store value (irrelevant default on the
kinds excluded by a serializability hypothesis). -/
def jsOf : SValue → Json
  | .js j => j
  | _ => .null

theorem jsEntries_allJs (store : List (String × SValue))
    (hjs : ∀ p ∈ store, ∃ j, p.2 = SValue.js j) :
    jsEntries store = store.map (fun p => (p.1, jsOf p.2)) := by
  induction store with
  | nil => rfl
  | cons p rest ih =>
    obtain ⟨k, v⟩ := p
    obtain ⟨j, hj⟩ := hjs (k, v) (by simp)
    simp only at hj
    subst hj
    simp [jsEntries, toJson?, jsOf, ih (fun q hq => hjs q (by simp [hq]))]

theorem serializer_script (dev : Bool) (store : List (String × SValue))
    (hne : store ≠ []) (hjs : ∀ p ∈ store, ∃ j, p.2 = SValue.js j) :
    BridgeSerializer dev store
      = .script BRIDGE_SCRIPT_ID BRIDGE_SCRIPT_TYPE
          (printJson (.obj (jsEntries store))) := by
  have hdoc : storeDoc store = some (jsEntries store) :=
    storeDoc_of_noThrow store (fun p hp => by
      obtain ⟨j, hj⟩ := hjs p hp
      simp [hj])
  have hlen : ¬ store.length = 0 := by
    cases store with
    | nil => exact absurd rfl hne
    | cons a l => simp
  simp [BridgeSerializer, hlen, hdoc]

/-- C4 fails as stated: a non-empty store holding a value `JSON.stringify`
throws on (a circular reference) makes the production `BridgeSerializer`
render nothing instead of emitting a script element. -/
theorem c4_counterexample :
    BridgeSerializer false [(String.mk ['a'], SValue.circular)]
      = RenderResult.empty
    ∧ ([(String.mk ['a'], SValue.circular)] : List (String × SValue)) ≠ [] :=
  ⟨rfl, by simp⟩

/-- C4 amended: for every non-empty request store of JSON-serializable
values, `BridgeSerializer` emits exactly one script element, with the
well-known id `__CONTEXT_BRIDGE_STORE__` and type `application/json`, whose
text is the single JSON document carrying every entry of the store; an empty
store renders nothing. -/
theorem c4_single_blob (dev : Bool) (store : List (String × SValue))
    (hne : store ≠ []) (hjs : ∀ p ∈ store, ∃ j, p.2 = SValue.js j) :
    BridgeSerializer dev store
      = .script BRIDGE_SCRIPT_ID BRIDGE_SCRIPT_TYPE
          (printJson (.obj (jsEntries store)))
    ∧ jsEntries store = store.map (fun p => (p.1, jsOf p.2))
    ∧ BridgeSerializer dev [] = RenderResult.empty :=
  ⟨serializer_script dev store hne hjs, jsEntries_allJs store hjs, rfl⟩

/-- C4 witness. -/
theorem c4_witness :
    (([(String.mk ['a'], SValue.js Json.null)] : List (String × SValue)) ≠ [])
    ∧ BridgeSerializer false [(String.mk ['a'], SValue.js Json.null)]
      = RenderResult.script BRIDGE_SCRIPT_ID BRIDGE_SCRIPT_TYPE
          (printJson
            (.obj (jsEntries [(String.mk ['a'], SValue.js Json.null)]))) := by
  refine ⟨by simp, ?_⟩
  exact (c4_single_blob false [(String.mk ['a'], SValue.js Json.null)]
    (by simp) (fun p hp => ⟨Json.null, by
      simp only [List.mem_singleton] at hp
      simp [hp]⟩)).1

/-- C5 fails as stated: `useBridge` raises an error when used without an
enclosing `BridgeProvider`. -/
theorem c5_counterexample :
    useBridge (none : Option Json) = Except.error bridgeErrMsg := rfl

/-- C5 amended: the serialize/hydrate path never throws in production —
`BridgeSerializer` with `NODE_ENV ≠ development` catches stringify failures
and renders nothing, and hooks fall back to the default on missing or
unparsable data — but `useBridge` throws outside a `BridgeProvider` (the
counterexample) and the development serializer re-throws. -/
theorem c5_failure_handling (store : List (String × SValue))
    (blob : BlobState) (bridgeId : String) (d : Json) (v : Json) :
    BridgeSerializer false store ≠ RenderResult.thrown
    ∧ (blobParse blob = none →
        useBridgeData bridgeId d (.browser blob) none = d)
    ∧ useBridge (some v) = Except.ok v := by
  refine ⟨?_, ?_, rfl⟩
  · by_cases hlen : store.length = 0
    · simp [BridgeSerializer, hlen]
    · cases hdoc : storeDoc store with
      | some es => simp [BridgeSerializer, hlen, hdoc]
      | none => simp [BridgeSerializer, hlen, hdoc]
  · intro h
    have hret := (ghs_blobParse_none blob h).1
    simp [useBridgeData, hret, jsIndex, lastSet]

/-- C5 witness. -/
theorem c5_witness :
    blobParse BlobState.absent = none
    ∧ useBridgeData (String.mk ['b']) (Json.num 9)
        (Env.browser BlobState.absent) none = Json.num 9 := by
  refine ⟨rfl, ?_⟩
  exact (c5_failure_handling [] BlobState.absent (String.mk ['b'])
    (Json.num 9) Json.null).2.1 rfl

/-- C1: round trip of the serialize/hydrate protocol: for a request store
populated by Providers with JSON-serializable values, rendering
`BridgeSerializer` on the server and hydrating the emitted blob in a browser
yields a client mapping in which every identifier set server-side maps to the
JSON round trip (`JSON.parse` of `JSON.stringify`) of the stored value —
which, by the round-trip theorem, is the value itself — so the hook for the
identifier returns that value rather than its default. -/
theorem c1_serialize_hydrate_roundtrip (ps : List (String × Json))
    (id : String) (v : Json) (dev : Bool) (d : Json)
    (hset : storeLookup
        (runProviders (ps.map (fun p => (p.1, SValue.js p.2)))) id
      = some (SValue.js v)) :
    ∃ content,
      BridgeSerializer dev
          (runProviders (ps.map (fun p => (p.1, SValue.js p.2))))
        = .script BRIDGE_SCRIPT_ID BRIDGE_SCRIPT_TYPE content
      ∧ jsParse (printJson v) = some v
      ∧ jsIndex (getHydratedStore (.browser (.present content)) none).ret id
        = jsParse (printJson v)
      ∧ useBridgeData id d (.browser (.present content)) none = v := by
  set store := runProviders (ps.map (fun p => (p.1, SValue.js p.2)))
    with hstore
  have hjs : ∀ p ∈ store, ∃ j, p.2 = SValue.js j := by
    refine runProviders_values _ _ ?_
    intro p hp
    obtain ⟨q, hq, hqe⟩ := List.mem_map.mp hp
    exact ⟨q.2, by simp [← hqe]⟩
  have hne : store ≠ [] := by
    intro hnil
    rw [hnil] at hset
    simp [storeLookup] at hset
  have hser := serializer_script dev store hne hjs
  have hblob : blobParse (.present (printJson (.obj (jsEntries store))))
      = some (.obj (jsEntries store)) := by
    have hemp : (printJson (.obj (jsEntries store))).isEmpty = false := by
      simp [printJson]
    simp [blobParse, hemp, jsParse_printJson]
  have hret : (getHydratedStore
        (.browser (.present (printJson (.obj (jsEntries store))))) none).ret
      = .obj (jsEntries store) := by
    rw [ghs_blobParse_some _ _ hblob]
    simp [jsTruthy]
  have hidx : jsIndex (Json.obj (jsEntries store)) id = some v := by
    simp only [jsIndex]
    exact jsEntries_lastSet store id v (runProviders_nodupKeys _) hset
  refine ⟨printJson (.obj (jsEntries store)), hser, jsParse_printJson v,
    ?_, ?_⟩
  · rw [hret, hidx, jsParse_printJson]
  · simp [useBridgeData, hret, hidx]

/-- C1 witness: one Provider stores `1` under `a`; the serializer emits the
blob, hydration recovers it, the hook returns `1` instead of the default
`null`. -/
theorem c1_witness :
    storeLookup (runProviders ([(String.mk ['a'], Json.num 1)].map
        (fun p => (p.1, SValue.js p.2)))) (String.mk ['a'])
      = some (SValue.js (Json.num 1))
    ∧ ∃ content,
        BridgeSerializer false
            (runProviders ([(String.mk ['a'], Json.num 1)].map
              (fun p => (p.1, SValue.js p.2))))
          = .script BRIDGE_SCRIPT_ID BRIDGE_SCRIPT_TYPE content
        ∧ jsParse (printJson (Json.num 1)) = some (Json.num 1)
        ∧ jsIndex (getHydratedStore (.browser (.present content)) none).ret
            (String.mk ['a']) = jsParse (printJson (Json.num 1))
        ∧ useBridgeData (String.mk ['a']) Json.null
            (.browser (.present content)) none = Json.num 1 := by
  refine ⟨rfl, ?_⟩
  exact c1_serialize_hydrate_roundtrip [(String.mk ['a'], Json.num 1)]
    (String.mk ['a']) (Json.num 1) false Json.null rfl

end ContextBridge
